import Mathlib

/-!
Taller 1 — Rashevsky model: Euler, Taylor order 2, implicit trapezoid.

Shallow embedding of `src/taller1_cpp.cpp`, in two readings of its `double`s.

* Exact arithmetic: a `double` is an element of a field `K` (the rationals for
  evaluation, the reals where `exp` is involved) and nothing is rounded.  This
  reading serves the statements that are explicitly about real or rational
  arithmetic and those about the shape of the loops, which do not depend on the
  arithmetic.  The `<cmath>` function `exp` is a parameter `expf`, instantiated
  with `Real.exp`.
* Binary64 arithmetic (`Dbl`): every operation is rounded to the nearest
  `double`.  This reading serves the statements about the values the program
  really computes.
-/

namespace Taller1

section Embedding

variable {K : Type*} [Field K]

/-! ## Precomputed constants (source lines 29–34), as functions of `h` and `k` -/

/-- Source line 29: `hk = h * k`. -/
def hk (h k : K) : K := h * k

/-- Source line 30: `factor_t2 = hk - 0.5 * h * h * k * k`. -/
def factor_t2 (h k : K) : K := hk h k - 0.5 * h * h * k * k

/-- Source line 31: `hk2 = hk / 2.0`. -/
def hk2 (h k : K) : K := hk h k / 2.0

/-- Source line 32: `a_trap = 1.0 - hk2`. -/
def a_trap (h k : K) : K := 1.0 - hk2 h k

/-- Source line 33: `b_trap = hk`. -/
def b_trap (h k : K) : K := hk h k

/-- Source line 34: `c_trap = 1.0 + hk2`. -/
def c_trap (h k : K) : K := 1.0 + hk2 h k

/-! ## Recurrence steps (source lines 67–69, 87, 101, 115) -/

/-- Explicit Euler step, `pe = pe + hk * (1.0 - pe)`. -/
def eulerStep (h k p : K) : K := p + hk h k * (1.0 - p)

/-- Taylor order 2 step, `pt = pt + (1.0 - pt) * factor_t2`. -/
def taylorStep (h k p : K) : K := p + (1.0 - p) * factor_t2 h k

/-- Implicit trapezoid step, `pz = (pz * a_trap + b_trap) / c_trap`. -/
def trapStep (h k p : K) : K := (p * a_trap h k + b_trap h k) / c_trap h k

/-! ## Verification loop (source lines 56–71) -/

/-- One emitted table row: the step index and the four printed values
(before formatting). -/
structure Row (K : Type*) where
  /-- Step index, first column. -/
  i : ℕ
  /-- Column `Exacta`. -/
  t_exact : K
  /-- Column `Euler`. -/
  pe : K
  /-- Column `Taylor2`. -/
  pt : K
  /-- Column `Trapecio`. -/
  pz : K

/-- The mutable variables of the verification loop together with the rows
written so far. -/
structure VerifState (K : Type*) where
  /-- Euler state `pe`. -/
  pe : K
  /-- Taylor state `pt`. -/
  pt : K
  /-- Trapezoid state `pz`. -/
  pz : K
  /-- Rows written to the console so far, oldest first. -/
  out : List (Row K)

/-- Source line 59: `t_exact = 1.0 - (1.0 - p0) * exp(-k * i * h)`. -/
def t_exact (expf : K → K) (p0 h k : K) (i : ℕ) : K :=
  1.0 - (1.0 - p0) * expf (-k * (i : K) * h)

/-- Body of the verification loop for index `i` (source lines 58–70): emit a
row when `i % 5 == 0`, then advance the three states when `i < steps`. -/
def verifBody (expf : K → K) (p0 h k : K) (steps : ℕ) (s : VerifState K) (i : ℕ) :
    VerifState K :=
  let out := if i % 5 = 0 then
      s.out ++ [{ i := i, t_exact := t_exact expf p0 h k i, pe := s.pe, pt := s.pt, pz := s.pz }]
    else s.out
  if i < steps then
    { pe := eulerStep h k s.pe, pt := taylorStep h k s.pt, pz := trapStep h k s.pz, out := out }
  else
    { pe := s.pe, pt := s.pt, pz := s.pz, out := out }

/-- The first `n` iterations of `for (int i = 0; i <= steps; i++)`, started from
`pe = pt = pz = p0` and no output. -/
def verifPrefix (expf : K → K) (p0 h k : K) (steps n : ℕ) : VerifState K :=
  (List.range n).foldl (verifBody expf p0 h k steps) { pe := p0, pt := p0, pz := p0, out := [] }

/-- The whole verification loop: indices `0, 1, …, steps`. -/
def verifLoop (expf : K → K) (p0 h k : K) (steps : ℕ) : VerifState K :=
  verifPrefix expf p0 h k steps (steps + 1)

/-! ## Benchmark loops (source lines 84–89, 98–103, 112–117) -/

/-- Inner loop `for (int i = 0; i < steps; i++) p = step(p);` started at `p`. -/
def innerLoop (step : K → K) (steps : ℕ) (p : K) : K :=
  (List.range steps).foldl (fun q _ => step q) p

/-- Outer loop `for (long long j = 0; j < ITERS; j++)`: each repetition restarts
from `p0`, runs the inner loop and stores the result in `p_final` when
`j == ITERS - 1`.  `p_final` is `none` while it is uninitialised
(`double p_final;`, line 76). -/
def benchLoop (step : K → K) (p0 : K) (steps ITERS : ℕ) (p_final : Option K) : Option K :=
  (List.range ITERS).foldl
    (fun pf j => if j = ITERS - 1 then some (innerLoop step steps p0) else pf) p_final

/-- Euler benchmark (lines 84–89). -/
def benchEuler (p0 h k : K) (steps ITERS : ℕ) (p_final : Option K) : Option K :=
  benchLoop (fun p => p + hk h k * (1.0 - p)) p0 steps ITERS p_final

/-- Taylor order 2 benchmark (lines 98–103). -/
def benchTaylor (p0 h k : K) (steps ITERS : ℕ) (p_final : Option K) : Option K :=
  benchLoop (fun p => p + (1.0 - p) * factor_t2 h k) p0 steps ITERS p_final

/-- Implicit trapezoid benchmark (lines 112–117). -/
def benchTrap (p0 h k : K) (steps ITERS : ℕ) (p_final : Option K) : Option K :=
  benchLoop (fun p => (p * a_trap h k + b_trap h k) / c_trap h k) p0 steps ITERS p_final

/-! ## Model parameters (source lines 20–26, 36) -/

/-- Source line 20. -/
def p0 : K := 0.01

/-- Source line 21. -/
def b : K := 0.02

/-- Source line 22 (informative only, unused). -/
def d : K := 0.015

/-- Source line 23. -/
def r : K := 0.1

/-- Source line 24: `k = r * b`. -/
def k : K := r * b

/-- Source line 25. -/
def h : K := 1.0

/-- Source line 26. -/
def steps : ℕ := 50

/-- Source line 36. -/
def ITERS : ℕ := 10000000

end Embedding

/-! ## The same program in binary64 arithmetic

`Dbl` repeats the constants, the steps and the verification loop with every
arithmetic operation rounded as the hardware does it: a `double` is the rational
it denotes, and `+`, `-`, `*`, `/` return the exact result rounded to the nearest
binary64 value, ties to even (`rnd`), one rounding per operation (no fused
multiply-add).  Decimal literals denote the nearest `double`.  Subnormals are
covered (the exponent of the last place is at least `-1074`); a result of
magnitude `2^1024` or more, which the hardware replaces by an infinity, is outside
the model, and `-0.0` is not told apart from `0.0`.  The library function `exp`
is a parameter `expf`. -/

namespace Dbl

/-- Power of two `2^e` for an integer exponent. -/
def pow2 (e : ℤ) : ℚ :=
  if 0 ≤ e then ((2 ^ e.toNat : ℕ) : ℚ) else 1 / ((2 ^ (-e).toNat : ℕ) : ℚ)

/-- Nearest integer, a tie going to the even neighbour. -/
def roundEven (q : ℚ) : ℤ :=
  let f := Rat.floor q
  let t := q - (f : ℚ)
  if t < 1 / 2 then f
  else if 1 / 2 < t then f + 1
  else if f % 2 = 0 then f else f + 1

/-- Binary logarithm of a natural number, rounded down, by halving; `fuel` bounds
the number of halvings. -/
def log2Aux : ℕ → ℕ → ℕ
  | 0, _ => 0
  | fuel + 1, n => if n < 2 then 0 else log2Aux fuel (n / 2) + 1

/-- Binary logarithm of a natural number, rounded down (`0` at `0`). -/
def nlog2 (n : ℕ) : ℕ := log2Aux n n

/-- The integer `e` with `2^e ≤ |q| < 2^(e+1)`, for `q ≠ 0`. -/
def ilog2 (q : ℚ) : ℤ :=
  let e : ℤ := (nlog2 q.num.natAbs : ℤ) - (nlog2 q.den : ℤ)
  if |q| < pow2 e then e - 1 else e

/-- Rounding to binary64, round-to-nearest, ties-to-even: the result is a multiple
of `2^e`, `e = max (⌊log2 |q|⌋ - 52) (-1074)`, with at most 53 significant bits. -/
def rnd (q : ℚ) : ℚ :=
  if q = 0 then 0
  else
    let e := max (ilog2 q - 52) (-1074)
    (roundEven (q / pow2 e) : ℚ) * pow2 e

/-- Operator `+` on `double`. -/
def add (x y : ℚ) : ℚ := rnd (x + y)

/-- Operator `-` on `double`. -/
def sub (x y : ℚ) : ℚ := rnd (x - y)

/-- Operator `*` on `double`. -/
def mul (x y : ℚ) : ℚ := rnd (x * y)

/-- Operator `/` on `double`. -/
def div (x y : ℚ) : ℚ := rnd (x / y)

/-- Source line 20. -/
def p0 : ℚ := rnd 0.01

/-- Source line 21. -/
def b : ℚ := rnd 0.02

/-- Source line 22 (informative only, unused). -/
def d : ℚ := rnd 0.015

/-- Source line 23. -/
def r : ℚ := rnd 0.1

/-- Source line 24: `k = r * b`. -/
def k : ℚ := mul r b

/-- Source line 25. -/
def h : ℚ := rnd 1.0

/-- Source line 29: `hk = h * k`. -/
def hk (h k : ℚ) : ℚ := mul h k

/-- Source line 30: `factor_t2 = hk - 0.5 * h * h * k * k`, the product taken
from the left. -/
def factor_t2 (h k : ℚ) : ℚ := sub (hk h k) (mul (mul (mul (mul (rnd 0.5) h) h) k) k)

/-- Source line 31: `hk2 = hk / 2.0`. -/
def hk2 (h k : ℚ) : ℚ := div (hk h k) (rnd 2.0)

/-- Source line 32: `a_trap = 1.0 - hk2`. -/
def a_trap (h k : ℚ) : ℚ := sub (rnd 1.0) (hk2 h k)

/-- Source line 33: `b_trap = hk`. -/
def b_trap (h k : ℚ) : ℚ := hk h k

/-- Source line 34: `c_trap = 1.0 + hk2`. -/
def c_trap (h k : ℚ) : ℚ := add (rnd 1.0) (hk2 h k)

/-- Source line 67: `pe = pe + hk * (1.0 - pe)`. -/
def eulerStep (h k p : ℚ) : ℚ := add p (mul (hk h k) (sub (rnd 1.0) p))

/-- Source line 68: `pt = pt + (1.0 - pt) * factor_t2`. -/
def taylorStep (h k p : ℚ) : ℚ := add p (mul (sub (rnd 1.0) p) (factor_t2 h k))

/-- Source line 69: `pz = (pz * a_trap + b_trap) / c_trap`. -/
def trapStep (h k p : ℚ) : ℚ := div (add (mul p (a_trap h k)) (b_trap h k)) (c_trap h k)

/-- Source line 59: `t_exact = 1.0 - (1.0 - p0) * exp(-k * i * h)`, the `int`
index converted to `double`. -/
def t_exact (expf : ℚ → ℚ) (p0 h k : ℚ) (i : ℕ) : ℚ :=
  sub (rnd 1.0) (mul (sub (rnd 1.0) p0) (expf (mul (mul (-k) (rnd (i : ℚ))) h)))

/-- Body of the verification loop for index `i` (source lines 58–70). -/
def verifBody (expf : ℚ → ℚ) (p0 h k : ℚ) (steps : ℕ) (s : VerifState ℚ) (i : ℕ) :
    VerifState ℚ :=
  let out := if i % 5 = 0 then
      s.out ++ [{ i := i, t_exact := t_exact expf p0 h k i, pe := s.pe, pt := s.pt, pz := s.pz }]
    else s.out
  if i < steps then
    { pe := eulerStep h k s.pe, pt := taylorStep h k s.pt, pz := trapStep h k s.pz, out := out }
  else
    { pe := s.pe, pt := s.pt, pz := s.pz, out := out }

/-- The first `n` iterations of `for (int i = 0; i <= steps; i++)`, started from
`pe = pt = pz = p0` and no output. -/
def verifPrefix (expf : ℚ → ℚ) (p0 h k : ℚ) (steps n : ℕ) : VerifState ℚ :=
  (List.range n).foldl (verifBody expf p0 h k steps) { pe := p0, pt := p0, pz := p0, out := [] }

/-- The whole verification loop: indices `0, 1, …, steps`. -/
def verifLoop (expf : ℚ → ℚ) (p0 h k : ℚ) (steps : ℕ) : VerifState ℚ :=
  verifPrefix expf p0 h k steps (steps + 1)

/-- Output of a value under `fixed << setprecision(prec)` (line 43, `prec = 8`):
the decimal with `prec` fraction digits nearest to the value, given as the count
of units of `10^(-prec)`; `1000000` at `prec = 8` is the text `0.01000000`. -/
def fmtFixed (prec : ℕ) (q : ℚ) : ℤ := roundEven (q * 10 ^ prec)

end Dbl

/-! ## Algebra of the three steps -/

section Algebra

variable {K : Type*} [Field K]

theorem hk2_eq (h k : K) : hk2 h k = h * k / 2 := by
  simp only [hk2, hk]; norm_num

theorem factor_t2_eq [CharZero K] (h k : K) : factor_t2 h k = h * k - (h * k) ^ 2 / 2 := by
  simp only [factor_t2, hk]; norm_num; ring

theorem c_trap_eq [CharZero K] (h k : K) : c_trap h k = 1 + h * k / 2 := by
  simp only [c_trap, hk2_eq]; norm_num

theorem a_trap_eq [CharZero K] (h k : K) : a_trap h k = 1 - h * k / 2 := by
  simp only [a_trap, hk2_eq]; norm_num

theorem eulerStep_eq (h k p : K) : eulerStep h k p = 1 - (1 - p) * (1 - h * k) := by
  simp only [eulerStep, hk]; norm_num; ring

theorem taylorStep_eq (h k p : K) :
    taylorStep h k p = 1 - (1 - p) * (1 - factor_t2 h k) := by
  simp only [taylorStep]; norm_num; ring

theorem trapStep_eq [CharZero K] (h k p : K) (hc : 1 + h * k / 2 ≠ 0) :
    trapStep h k p = 1 - (1 - p) * (a_trap h k / c_trap h k) := by
  simp only [trapStep, b_trap, hk, a_trap_eq, c_trap_eq]
  rw [eq_sub_iff_add_eq, ← mul_div_assoc, ← add_div, div_eq_one_iff_eq hc]
  have h2 : (2 : K) ≠ 0 := two_ne_zero
  field_simp
  ring

/-- A step of the shape `p ↦ 1 - (1 - p) * q` iterates to `1 - (1 - p) * q ^ n`. -/
theorem iterate_affine (f : K → K) (q : K) (hf : ∀ p, f p = 1 - (1 - p) * q) (n : ℕ) (p : K) :
    f^[n] p = 1 - (1 - p) * q ^ n := by
  induction n generalizing p with
  | zero => simp
  | succ n ih => rw [Function.iterate_succ_apply, ih, hf]; ring

end Algebra

/-! ## Claims about the step formulas -/

section StepClaims

variable {K : Type*} [Field K] [CharZero K]

/-- C1: when `1 + h*k/2 ≠ 0`, the trapezoid step `p' = (p*a_trap + b_trap)/c_trap`
solves the implicit update `p' = p + (h*k/2) * ((1 - p) + (1 - p'))`, and it is the
only solution of that equation. -/
theorem trapStep_solves_implicit (p h k : K) (hc : 1 + h * k / 2 ≠ 0) :
    trapStep h k p = p + (h * k / 2) * ((1 - p) + (1 - trapStep h k p)) ∧
    ∀ x : K, x = p + (h * k / 2) * ((1 - p) + (1 - x)) → x = trapStep h k p := by
  have hval : trapStep h k p = (p * (1 - h * k / 2) + h * k) / (1 + h * k / 2) := by
    simp only [trapStep, b_trap, hk, a_trap_eq, c_trap_eq]
  have hmul : trapStep h k p * (1 + h * k / 2) = p * (1 - h * k / 2) + h * k := by
    rw [hval, div_mul_cancel₀ _ hc]
  refine ⟨?_, fun x hx => ?_⟩
  · linear_combination hmul
  · rw [hval, eq_div_iff hc]
    linear_combination hx

theorem trapStep_solves_implicit_witness :
    trapStep (1 : ℚ) (1 / 500) (1 / 100)
        = 1 / 100 + ((1 : ℚ) * (1 / 500) / 2)
            * ((1 - 1 / 100) + (1 - trapStep (1 : ℚ) (1 / 500) (1 / 100))) ∧
    ∀ x : ℚ, x = 1 / 100 + ((1 : ℚ) * (1 / 500) / 2) * ((1 - 1 / 100) + (1 - x)) →
      x = trapStep (1 : ℚ) (1 / 500) (1 / 100) :=
  trapStep_solves_implicit (1 / 100) 1 (1 / 500) (by norm_num)

/-- C9: the Taylor order 2 step `p + (1 - p) * factor_t2`, with
`factor_t2 = h*k - 0.5*h*h*k*k`, is the second-order Taylor expansion
`p + h*f(p) + (h^2/2) * f'(p) * f(p)` for `f(p) = k*(1 - p)`, `f'(p) = -k`, and it
is the Euler step plus the correction `-(h^2*k^2/2) * (1 - p)`. -/
theorem taylorStep_second_order (p h k : K) :
    factor_t2 h k = h * k - 0.5 * h * h * k * k ∧
    taylorStep h k p = p + (1 - p) * factor_t2 h k ∧
    taylorStep h k p = p + h * (k * (1 - p)) + (h ^ 2 / 2) * (-k) * (k * (1 - p)) ∧
    eulerStep h k p = p + h * k * (1 - p) ∧
    taylorStep h k p = eulerStep h k p + -(h ^ 2 * k ^ 2 / 2) * (1 - p) := by
  refine ⟨rfl, ?_, ?_, ?_, ?_⟩
  · simp only [taylorStep]; norm_num
  · rw [taylorStep_eq, factor_t2_eq]; ring
  · rw [eulerStep_eq]; ring
  · rw [taylorStep_eq, factor_t2_eq, eulerStep_eq]; ring

theorem taylorStep_second_order_witness :
    factor_t2 (1 : ℚ) (1 / 500) = 1 * (1 / 500) - 0.5 * 1 * 1 * (1 / 500) * (1 / 500) ∧
    taylorStep (1 : ℚ) (1 / 500) (1 / 100)
      = 1 / 100 + (1 - 1 / 100) * factor_t2 (1 : ℚ) (1 / 500) ∧
    taylorStep (1 : ℚ) (1 / 500) (1 / 100)
      = 1 / 100 + 1 * (1 / 500 * (1 - 1 / 100))
        + ((1 : ℚ) ^ 2 / 2) * (-(1 / 500)) * (1 / 500 * (1 - 1 / 100)) ∧
    eulerStep (1 : ℚ) (1 / 500) (1 / 100) = 1 / 100 + 1 * (1 / 500) * (1 - 1 / 100) ∧
    taylorStep (1 : ℚ) (1 / 500) (1 / 100)
      = eulerStep (1 : ℚ) (1 / 500) (1 / 100)
        + -((1 : ℚ) ^ 2 * (1 / 500) ^ 2 / 2) * (1 - 1 / 100) :=
  taylorStep_second_order (1 / 100) 1 (1 / 500)

end StepClaims

/-! ## The loops -/

section Loops

variable {K : Type*} [Field K]

/-- The row the verification loop writes for index `i`, in terms of iterates of
the three steps (an index beyond `steps` sees the states frozen at `steps`). -/
def rowAt (expf : K → K) (p0 h k : K) (steps i : ℕ) : Row K :=
  { i := i
    t_exact := t_exact expf p0 h k i
    pe := (eulerStep h k)^[min i steps] p0
    pt := (taylorStep h k)^[min i steps] p0
    pz := (trapStep h k)^[min i steps] p0 }

theorem verifPrefix_succ (expf : K → K) (p0 h k : K) (steps n : ℕ) :
    verifPrefix expf p0 h k steps (n + 1)
      = verifBody expf p0 h k steps (verifPrefix expf p0 h k steps n) n := by
  simp [verifPrefix, List.range_succ, List.foldl_append]

/-- Loop invariant of the verification loop: after the indices `0, …, n - 1` each
state has been advanced `min n steps` times and the output holds the rows of the
multiples of five below `n`. -/
theorem verifPrefix_eq (expf : K → K) (p0 h k : K) (steps n : ℕ) :
    verifPrefix expf p0 h k steps n =
      { pe := (eulerStep h k)^[min n steps] p0
        pt := (taylorStep h k)^[min n steps] p0
        pz := (trapStep h k)^[min n steps] p0
        out := ((List.range n).filter (fun i => i % 5 = 0)).map (rowAt expf p0 h k steps) } := by
  induction n with
  | zero => simp [verifPrefix]
  | succ n ih =>
    rw [verifPrefix_succ, ih]
    have hout : (if n % 5 = 0 then
          ((List.range n).filter (fun i => i % 5 = 0)).map (rowAt expf p0 h k steps)
            ++ [rowAt expf p0 h k steps n]
        else ((List.range n).filter (fun i => i % 5 = 0)).map (rowAt expf p0 h k steps))
        = ((List.range (n + 1)).filter (fun i => i % 5 = 0)).map (rowAt expf p0 h k steps) := by
      by_cases h5 : n % 5 = 0 <;> simp [List.range_succ, List.filter_append, h5]
    by_cases hn : n < steps
    · have h1 : min n steps = n := Nat.min_eq_left hn.le
      have h2 : min (n + 1) steps = n + 1 := Nat.min_eq_left hn
      simp only [verifBody, hn, if_true, h1, h2, Function.iterate_succ_apply']
      rw [← hout]
      simp only [rowAt, h1]
    · have h1 : min n steps = steps := Nat.min_eq_right (not_lt.mp hn)
      have h2 : min (n + 1) steps = steps := Nat.min_eq_right (by omega)
      simp only [verifBody, hn, if_false, h1, h2]
      rw [← hout]
      simp only [rowAt, h1]

/-- Output of the verification loop for `steps = 50`. -/
theorem verifLoop_out (expf : K → K) (p0 h k : K) :
    (verifLoop expf p0 h k steps).out
      = [0, 5, 10, 15, 20, 25, 30, 35, 40, 45, 50].map (rowAt expf p0 h k 50) := by
  have hfilter : (List.range (50 + 1)).filter (fun i => i % 5 = 0)
      = [0, 5, 10, 15, 20, 25, 30, 35, 40, 45, 50] := by decide
  rw [verifLoop, verifPrefix_eq, steps, hfilter]

end Loops

section Benchmark

variable {α : Type*}

theorem innerLoop_eq (step : α → α) (n : ℕ) (p : α) : innerLoop step n p = step^[n] p := by
  induction n with
  | zero => simp [innerLoop]
  | succ n ih =>
    have hs : innerLoop step (n + 1) p = step (innerLoop step n p) := by
      simp [innerLoop, List.range_succ, List.foldl_append]
    rw [hs, ih, Function.iterate_succ_apply']

theorem benchLoop_eq (step : α → α) (p0 : α) (n N : ℕ) (hN : 1 ≤ N) (pf : Option α) :
    benchLoop step p0 n N pf = some (step^[n] p0) := by
  obtain ⟨M, rfl⟩ : ∃ M, N = M + 1 := ⟨N - 1, by omega⟩
  simp [benchLoop, List.range_succ, List.foldl_append, innerLoop_eq]

end Benchmark

/-! ## Claims about the loops -/

section LoopClaims

variable {K : Type*} [Field K]

/-- C6: the verification loop writes exactly 11 rows, for the indices
`0, 5, 10, …, 50` in this order; the row of index `i` shows the `i`-fold iterates
of the three steps from `p0` (a row is written before the advance); after the
indices `0, …, n - 1` every state has been advanced `min n 50` times, so each is
advanced 50 times in total and not after index 50. -/
theorem verifLoop_rows (expf : K → K) (p0 h k : K) :
    (verifLoop expf p0 h k steps).out
        = [0, 5, 10, 15, 20, 25, 30, 35, 40, 45, 50].map
            (fun i => { i := i, t_exact := t_exact expf p0 h k i,
                        pe := (eulerStep h k)^[i] p0, pt := (taylorStep h k)^[i] p0,
                        pz := (trapStep h k)^[i] p0 }) ∧
    (verifLoop expf p0 h k steps).out.length = 11 ∧
    (verifLoop expf p0 h k steps).out.map Row.i = [0, 5, 10, 15, 20, 25, 30, 35, 40, 45, 50] ∧
    (∀ n : ℕ,
      (verifPrefix expf p0 h k steps n).pe = (eulerStep h k)^[min n 50] p0 ∧
      (verifPrefix expf p0 h k steps n).pt = (taylorStep h k)^[min n 50] p0 ∧
      (verifPrefix expf p0 h k steps n).pz = (trapStep h k)^[min n 50] p0) ∧
    (verifLoop expf p0 h k steps).pe = (eulerStep h k)^[50] p0 ∧
    (verifLoop expf p0 h k steps).pt = (taylorStep h k)^[50] p0 ∧
    (verifLoop expf p0 h k steps).pz = (trapStep h k)^[50] p0 := by
  have hout := verifLoop_out expf p0 h k
  refine ⟨?_, ?_, ?_, fun n => ?_, ?_, ?_, ?_⟩
  · rw [hout]; simp [rowAt]
  · rw [hout]; simp
  · rw [hout]; simp [rowAt]
  · rw [verifPrefix_eq, steps]; exact ⟨rfl, rfl, rfl⟩
  · rw [verifLoop, verifPrefix_eq, steps]; rfl
  · rw [verifLoop, verifPrefix_eq, steps]; rfl
  · rw [verifLoop, verifPrefix_eq, steps]; rfl

/-- C7: for every repetition count `N ≥ 1` and whatever `p_final` held before, each
benchmark reports the 50-fold iterate of its step from `p0` — a value that does
not depend on `N` — and this is the value of that scheme in the last row of the
verification table, the row of index 50. -/
theorem bench_final (expf : K → K) (p0 h k : K) (N : ℕ) (pf : Option K) (hN : 1 ≤ N) :
    benchEuler p0 h k steps N pf = some ((eulerStep h k)^[50] p0) ∧
    benchTaylor p0 h k steps N pf = some ((taylorStep h k)^[50] p0) ∧
    benchTrap p0 h k steps N pf = some ((trapStep h k)^[50] p0) ∧
    (verifLoop expf p0 h k steps).out.getLast?.map Row.i = some 50 ∧
    (verifLoop expf p0 h k steps).out.getLast?.map Row.pe = benchEuler p0 h k steps N pf ∧
    (verifLoop expf p0 h k steps).out.getLast?.map Row.pt = benchTaylor p0 h k steps N pf ∧
    (verifLoop expf p0 h k steps).out.getLast?.map Row.pz = benchTrap p0 h k steps N pf := by
  have hout := verifLoop_out expf p0 h k
  have he : benchEuler p0 h k steps N pf = some ((eulerStep h k)^[50] p0) :=
    benchLoop_eq _ p0 50 N hN pf
  have ht : benchTaylor p0 h k steps N pf = some ((taylorStep h k)^[50] p0) :=
    benchLoop_eq _ p0 50 N hN pf
  have hz : benchTrap p0 h k steps N pf = some ((trapStep h k)^[50] p0) :=
    benchLoop_eq _ p0 50 N hN pf
  refine ⟨he, ht, hz, ?_, ?_, ?_, ?_⟩
  · rw [hout]; simp [rowAt]
  · rw [he, hout]; simp [rowAt]
  · rw [ht, hout]; simp [rowAt]
  · rw [hz, hout]; simp [rowAt]

theorem bench_final_witness :
    benchEuler (p0 : ℚ) h k steps ITERS none = some ((eulerStep h k)^[50] p0) ∧
    benchTaylor (p0 : ℚ) h k steps ITERS none = some ((taylorStep h k)^[50] p0) ∧
    benchTrap (p0 : ℚ) h k steps ITERS none = some ((trapStep h k)^[50] p0) ∧
    (verifLoop (fun _ => 1) (p0 : ℚ) h k steps).out.getLast?.map Row.i = some 50 ∧
    (verifLoop (fun _ => 1) (p0 : ℚ) h k steps).out.getLast?.map Row.pe
      = benchEuler p0 h k steps ITERS none ∧
    (verifLoop (fun _ => 1) (p0 : ℚ) h k steps).out.getLast?.map Row.pt
      = benchTaylor p0 h k steps ITERS none ∧
    (verifLoop (fun _ => 1) (p0 : ℚ) h k steps).out.getLast?.map Row.pz
      = benchTrap p0 h k steps ITERS none :=
  bench_final (fun _ => 1) p0 h k ITERS none (by norm_num [ITERS])

end LoopClaims

/-! ## The run with the program's parameters -/

section MainValues

variable {K : Type*} [Field K] [CharZero K]

theorem hk_main : hk (h : K) k = 1 / 500 := by
  simp only [hk, h, k, r, b]; norm_num

theorem factor_t2_main : factor_t2 (h : K) k = 999 / 500000 := by
  rw [factor_t2_eq]; simp only [h, k, r, b]; norm_num

theorem trap_ratio_main : a_trap (h : K) k / c_trap (h : K) k = 999 / 1001 := by
  rw [a_trap_eq, c_trap_eq]; simp only [h, k, r, b]; norm_num

theorem eulerStep_main (p : K) : eulerStep h k p = 1 - (1 - p) * (499 / 500) := by
  rw [eulerStep_eq]; simp only [h, k, r, b]; norm_num

theorem taylorStep_main (p : K) : taylorStep h k p = 1 - (1 - p) * (499001 / 500000) := by
  rw [taylorStep_eq, factor_t2_main]; norm_num

theorem trapStep_main (p : K) : trapStep h k p = 1 - (1 - p) * (999 / 1001) := by
  rw [trapStep_eq, trap_ratio_main]
  simp only [h, k, r, b]; norm_num

theorem euler_iter_main (n : ℕ) :
    (eulerStep (h : K) k)^[n] p0 = 1 - 99 / 100 * (499 / 500) ^ n := by
  rw [iterate_affine _ _ eulerStep_main]; simp only [p0]; norm_num

theorem taylor_iter_main (n : ℕ) :
    (taylorStep (h : K) k)^[n] p0 = 1 - 99 / 100 * (499001 / 500000) ^ n := by
  rw [iterate_affine _ _ taylorStep_main]; simp only [p0]; norm_num

theorem trap_iter_main (n : ℕ) :
    (trapStep (h : K) k)^[n] p0 = 1 - 99 / 100 * (999 / 1001) ^ n := by
  rw [iterate_affine _ _ trapStep_main]; simp only [p0]; norm_num

end MainValues

section Invariants

variable {K : Type*} [LinearOrderedField K]

theorem affine_step_bounds (q : K) (hq0 : 0 < q) (hq1 : q < 1) (p : K) (hp0 : 0 ≤ p)
    (hp1 : p < 1) :
    0 ≤ 1 - (1 - p) * q ∧ 1 - (1 - p) * q < 1 ∧ p < 1 - (1 - p) * q := by
  have hpos : 0 < 1 - p := sub_pos.mpr hp1
  refine ⟨?_, ?_, ?_⟩ <;> nlinarith [mul_pos hpos hq0, mul_pos hpos (sub_pos.mpr hq1)]

theorem affine_iter_bounds (f : K → K) (q : K) (hf : ∀ p, f p = 1 - (1 - p) * q)
    (hq0 : 0 < q) (hq1 : q < 1) (p : K) (hp0 : 0 ≤ p) (hp1 : p < 1) (n : ℕ) :
    0 ≤ f^[n] p ∧ f^[n] p < 1 := by
  induction n with
  | zero => exact ⟨hp0, hp1⟩
  | succ n ih =>
    rw [Function.iterate_succ_apply', hf]
    exact ⟨(affine_step_bounds q hq0 hq1 _ ih.1 ih.2).1, (affine_step_bounds q hq0 hq1 _ ih.1 ih.2).2.1⟩

theorem affine_iter_lt_succ (f : K → K) (q : K) (hf : ∀ p, f p = 1 - (1 - p) * q)
    (hq0 : 0 < q) (hq1 : q < 1) (p : K) (hp0 : 0 ≤ p) (hp1 : p < 1) (n : ℕ) :
    f^[n] p < f^[n + 1] p := by
  have hb := affine_iter_bounds f q hf hq0 hq1 p hp0 hp1 n
  rw [Function.iterate_succ_apply', hf]
  exact (affine_step_bounds q hq0 hq1 _ hb.1 hb.2).2.2

/-- Exact arithmetic with `p0 = 0.01`, `k = 0.002`, `h = 1` (so `hk = 0.002`,
`factor_t2 = 0.001998`, `a_trap/c_trap = 0.999/1.001`): every iterate of each scheme
lies in `[0, 1)` and is strictly below the next one, and each step maps `[0, 1)`
into `[0, 1)` and strictly increases `p`. -/
theorem affine_steps_main (i : ℕ) (p : K) (hp0 : 0 ≤ p) (hp1 : p < 1) :
    (hk (h : K) k = 0.002 ∧ factor_t2 (h : K) k = 0.001998 ∧
      a_trap (h : K) k / c_trap (h : K) k = 0.999 / 1.001) ∧
    (0 ≤ (eulerStep (h : K) k)^[i] p0 ∧ (eulerStep (h : K) k)^[i] p0 < 1 ∧
      (eulerStep (h : K) k)^[i] p0 < (eulerStep (h : K) k)^[i + 1] p0 ∧
      (eulerStep (h : K) k)^[i + 1] p0 < 1) ∧
    (0 ≤ (taylorStep (h : K) k)^[i] p0 ∧ (taylorStep (h : K) k)^[i] p0 < 1 ∧
      (taylorStep (h : K) k)^[i] p0 < (taylorStep (h : K) k)^[i + 1] p0 ∧
      (taylorStep (h : K) k)^[i + 1] p0 < 1) ∧
    (0 ≤ (trapStep (h : K) k)^[i] p0 ∧ (trapStep (h : K) k)^[i] p0 < 1 ∧
      (trapStep (h : K) k)^[i] p0 < (trapStep (h : K) k)^[i + 1] p0 ∧
      (trapStep (h : K) k)^[i + 1] p0 < 1) ∧
    (0 ≤ eulerStep h k p ∧ eulerStep h k p < 1 ∧ p < eulerStep h k p) ∧
    (0 ≤ taylorStep h k p ∧ taylorStep h k p < 1 ∧ p < taylorStep h k p) ∧
    (0 ≤ trapStep h k p ∧ trapStep h k p < 1 ∧ p < trapStep h k p) := by
  have h0 : (0 : K) ≤ p0 := by simp only [p0]; norm_num
  have h1 : (p0 : K) < 1 := by simp only [p0]; norm_num
  have key : ∀ (f : K → K) (q : K), (∀ x, f x = 1 - (1 - x) * q) → 0 < q → q < 1 →
      (0 ≤ f^[i] p0 ∧ f^[i] p0 < 1 ∧ f^[i] p0 < f^[i + 1] p0 ∧ f^[i + 1] p0 < 1) ∧
      (0 ≤ f p ∧ f p < 1 ∧ p < f p) := by
    intro f q hf hq0 hq1
    refine ⟨⟨(affine_iter_bounds f q hf hq0 hq1 p0 h0 h1 i).1,
      (affine_iter_bounds f q hf hq0 hq1 p0 h0 h1 i).2,
      affine_iter_lt_succ f q hf hq0 hq1 p0 h0 h1 i,
      (affine_iter_bounds f q hf hq0 hq1 p0 h0 h1 (i + 1)).2⟩, ?_⟩
    rw [hf]
    exact affine_step_bounds q hq0 hq1 p hp0 hp1
  have he := key (eulerStep h k) _ eulerStep_main (by norm_num) (by norm_num)
  have ht := key (taylorStep h k) _ taylorStep_main (by norm_num) (by norm_num)
  have hz := key (trapStep h k) _ trapStep_main (by norm_num) (by norm_num)
  refine ⟨⟨?_, ?_, ?_⟩, he.1, ht.1, hz.1, he.2, ht.2, hz.2⟩
  · rw [hk_main]; norm_num
  · rw [factor_t2_main]; norm_num
  · rw [trap_ratio_main]; norm_num

end Invariants

/-! ## Comparison with the exact solution -/

section Exact

/-- Degree 4 Taylor polynomial of `exp` with the remainder bound of
`Real.exp_bound` at `n = 5`. -/
theorem exp_taylor4 (x : ℝ) (hx : |x| ≤ 1) :
    |Real.exp x - (1 + x + x ^ 2 / 2 + x ^ 3 / 6 + x ^ 4 / 24)| ≤ |x| ^ 5 / 100 := by
  have hb := Real.exp_bound hx (n := 5) (by norm_num)
  have hs : (∑ m ∈ Finset.range 5, x ^ m / (m.factorial : ℝ))
      = 1 + x + x ^ 2 / 2 + x ^ 3 / 6 + x ^ 4 / 24 := by
    simp [Finset.sum_range_succ, Nat.factorial]
  have hc : ((Nat.succ 5 : ℕ) : ℝ) / (((Nat.factorial 5 : ℕ) : ℝ) * ((5 : ℕ) : ℝ)) = 1 / 100 := by
    norm_num [Nat.factorial]
  rw [hs, hc] at hb
  linarith

/-- Enclosure of `exp (-k*h) = exp (-0.002)`. -/
theorem exp_neg_hk_bounds : (9980019986 / 10 ^ 10 : ℝ) < Real.exp (-(1 / 500)) ∧
    Real.exp (-(1 / 500)) < (9980019987 / 10 ^ 10 : ℝ) := by
  have hb := exp_taylor4 (-(1 / 500)) (by rw [abs_neg, abs_of_nonneg] <;> norm_num)
  rw [abs_neg, abs_of_nonneg (by norm_num : (0 : ℝ) ≤ 1 / 500), abs_le] at hb
  constructor
  · have hl := hb.1
    norm_num at hl ⊢
    linarith
  · have hu := hb.2
    norm_num at hu ⊢
    linarith

/-- Enclosure of `exp (-k*5*h) = exp (-0.01)`. -/
theorem exp_neg_5hk_bounds : (99004983374 / 10 ^ 11 : ℝ) < Real.exp (-(1 / 100)) ∧
    Real.exp (-(1 / 100)) < (99004983376 / 10 ^ 11 : ℝ) := by
  have hb := exp_taylor4 (-(1 / 100)) (by rw [abs_neg, abs_of_nonneg] <;> norm_num)
  rw [abs_neg, abs_of_nonneg (by norm_num : (0 : ℝ) ≤ 1 / 100), abs_le] at hb
  constructor
  · have hl := hb.1
    norm_num at hl ⊢
    linarith
  · have hu := hb.2
    norm_num at hu ⊢
    linarith

/-- The exact column for the program's parameters, as a power of `exp (-0.002)`. -/
theorem t_exact_main (i : ℕ) :
    t_exact Real.exp (p0 : ℝ) h k i = 1 - 99 / 100 * Real.exp (-(1 / 500)) ^ i := by
  have harg : -(k : ℝ) * (i : ℝ) * h = (i : ℝ) * (-(1 / 500)) := by
    simp only [h, k, r, b]; norm_num; ring
  rw [t_exact, harg, Real.exp_nat_mul]
  simp only [p0]; norm_num

/-- For `1 ≤ i ≤ 50` the Taylor and Euler ratios straddle the lower enclosure of
`exp (-0.002)` with the Taylor ratio the closer one. -/
theorem ratio_check (i : ℕ) (h1 : 1 ≤ i) (h50 : i ≤ 50) :
    (499001 / 500000 : ℝ) ^ i + (499 / 500) ^ i < 2 * (9980019986 / 10 ^ 10) ^ i := by
  interval_cases i <;> norm_num

/-- The exact column at index 5 for the program's parameters. -/
theorem t_exact_five :
    t_exact Real.exp (p0 : ℝ) h k 5 = 1 - 99 / 100 * Real.exp (-(1 / 100)) := by
  have harg : -(k : ℝ) * ((5 : ℕ) : ℝ) * h = -(1 / 100) := by
    simp only [h, k, r, b]; norm_num
  rw [t_exact, harg]
  simp only [p0]; norm_num

/-- C2: with `p0 = 0.01`, `k = 0.002`, `h = 1` in exact real arithmetic, for every
index `1 ≤ i ≤ 50` the `i`-th Taylor order 2 iterate and the `i`-th trapezoid
iterate are each strictly closer to the exact solution
`1 - (1 - p0) * exp (-k*i*h)` than the `i`-th Euler iterate. -/
theorem taylor_trap_beat_euler (i : ℕ) (h1 : 1 ≤ i) (h50 : i ≤ 50) :
    |(taylorStep (h : ℝ) k)^[i] p0 - t_exact Real.exp p0 h k i|
      < |(eulerStep (h : ℝ) k)^[i] p0 - t_exact Real.exp p0 h k i| ∧
    |(trapStep (h : ℝ) k)^[i] p0 - t_exact Real.exp p0 h k i|
      < |(eulerStep (h : ℝ) k)^[i] p0 - t_exact Real.exp p0 h k i| ∧
    t_exact Real.exp (p0 : ℝ) h k i = 1 - (1 - p0) * Real.exp (-k * (i : ℝ) * h) := by
  have hi : i ≠ 0 := by omega
  obtain ⟨hlo, hhi⟩ := exp_neg_hk_bounds
  have hE0 : (0 : ℝ) ≤ Real.exp (-(1 / 500)) := (Real.exp_pos _).le
  have hLoE : (9980019986 / 10 ^ 10 : ℝ) ^ i ≤ Real.exp (-(1 / 500)) ^ i :=
    pow_le_pow_left₀ (by norm_num) hlo.le i
  have hEt : Real.exp (-(1 / 500)) ^ i < (499001 / 500000 : ℝ) ^ i :=
    pow_lt_pow_left₀ (lt_trans hhi (by norm_num)) hE0 hi
  have hzE : (999 / 1001 : ℝ) ^ i < Real.exp (-(1 / 500)) ^ i :=
    pow_lt_pow_left₀ (lt_trans (by norm_num) hlo) (by norm_num) hi
  have hez : (499 / 500 : ℝ) ^ i < (999 / 1001 : ℝ) ^ i :=
    pow_lt_pow_left₀ (by norm_num) (by norm_num) hi
  have hchk := ratio_check i h1 h50
  have hEul : |(eulerStep (h : ℝ) k)^[i] p0 - t_exact Real.exp p0 h k i|
      = 99 / 100 * (Real.exp (-(1 / 500)) ^ i - (499 / 500) ^ i) := by
    rw [euler_iter_main, t_exact_main, abs_of_nonneg (by linarith)]; ring
  have hTay : |(taylorStep (h : ℝ) k)^[i] p0 - t_exact Real.exp p0 h k i|
      = 99 / 100 * ((499001 / 500000) ^ i - Real.exp (-(1 / 500)) ^ i) := by
    rw [taylor_iter_main, t_exact_main, abs_of_nonpos (by linarith)]; ring
  have hTrap : |(trapStep (h : ℝ) k)^[i] p0 - t_exact Real.exp p0 h k i|
      = 99 / 100 * (Real.exp (-(1 / 500)) ^ i - (999 / 1001) ^ i) := by
    rw [trap_iter_main, t_exact_main, abs_of_nonneg (by linarith)]; ring
  refine ⟨?_, ?_, ?_⟩
  · rw [hEul, hTay]; linarith
  · rw [hEul, hTrap]; linarith
  · simp only [t_exact]; norm_num

theorem taylor_trap_beat_euler_witness :
    |(taylorStep (h : ℝ) k)^[50] p0 - t_exact Real.exp p0 h k 50|
      < |(eulerStep (h : ℝ) k)^[50] p0 - t_exact Real.exp p0 h k 50| ∧
    |(trapStep (h : ℝ) k)^[50] p0 - t_exact Real.exp p0 h k 50|
      < |(eulerStep (h : ℝ) k)^[50] p0 - t_exact Real.exp p0 h k 50| ∧
    t_exact Real.exp (p0 : ℝ) h k 50 = 1 - (1 - p0) * Real.exp (-k * ((50 : ℕ) : ℝ) * h) :=
  taylor_trap_beat_euler 50 (by decide) (by decide)

/-- C4, as stated, fails: the exact column at index 5, `1 - 0.99 * exp (-0.01)`, is
farther than `5e-9` from `0.02814973`. -/
theorem t_exact_five_not_02814973 :
    ¬ |t_exact Real.exp (p0 : ℝ) h k 5 - 0.02814973| ≤ 5e-9 := by
  obtain ⟨hlo, hhi⟩ := exp_neg_5hk_bounds
  rw [t_exact_five, abs_le]
  rintro ⟨hl, -⟩
  norm_num at hl hhi
  linarith

/-- C4, amended: the exact column at index 5 is `1 - 0.99 * exp (-0.01)` and rounds
to `0.01985066` at 8 decimal places (its distance from `0.01985066` is at most
`5e-9`). -/
theorem t_exact_five_rounds :
    t_exact Real.exp (p0 : ℝ) h k 5 = 1 - 0.99 * Real.exp (-0.01) ∧
    |t_exact Real.exp (p0 : ℝ) h k 5 - 0.01985066| ≤ 5e-9 := by
  obtain ⟨hlo, hhi⟩ := exp_neg_5hk_bounds
  refine ⟨?_, ?_⟩
  · rw [t_exact_five]; norm_num
  · rw [t_exact_five, abs_le]
    norm_num at hlo hhi ⊢
    constructor <;> linarith

end Exact

/-! ## Final values of the three schemes -/

section FinalValues

/-- C3, as stated, fails: in exact rational arithmetic the Euler value after 50
steps differs from the Taylor order 2 value by more than `1e-6`. -/
theorem final_values_not_within_1e6 :
    ¬ (|(eulerStep (h : ℚ) k)^[50] p0 - (taylorStep (h : ℚ) k)^[50] p0| ≤ 1e-6 ∧
       |(eulerStep (h : ℚ) k)^[50] p0 - (trapStep (h : ℚ) k)^[50] p0| ≤ 1e-6 ∧
       |(taylorStep (h : ℚ) k)^[50] p0 - (trapStep (h : ℚ) k)^[50] p0| ≤ 1e-6) := by
  rintro ⟨het, -, -⟩
  rw [euler_iter_main, taylor_iter_main, abs_le] at het
  norm_num at het

/-- C3, amended: after 50 steps the Euler value is within `1e-4` of the Taylor
order 2 value and of the trapezoid value, and the Taylor order 2 and trapezoid
values are within `1e-6` of each other (exact rational arithmetic). -/
theorem final_values_agree :
    |(eulerStep (h : ℚ) k)^[50] p0 - (taylorStep (h : ℚ) k)^[50] p0| ≤ 1e-4 ∧
    |(eulerStep (h : ℚ) k)^[50] p0 - (trapStep (h : ℚ) k)^[50] p0| ≤ 1e-4 ∧
    |(taylorStep (h : ℚ) k)^[50] p0 - (trapStep (h : ℚ) k)^[50] p0| ≤ 1e-6 := by
  rw [euler_iter_main, taylor_iter_main, trap_iter_main]
  refine ⟨?_, ?_, ?_⟩ <;> rw [abs_le] <;> norm_num

/-- The Euler and trapezoid values after 50 steps are more than `1e-6` apart as
well (exact rational arithmetic). -/
theorem euler_trap_gap :
    ¬ |(eulerStep (h : ℚ) k)^[50] p0 - (trapStep (h : ℚ) k)^[50] p0| ≤ 1e-6 := by
  intro hez
  rw [euler_iter_main, trap_iter_main, abs_le] at hez
  norm_num at hez

end FinalValues

/-! ## Binary64 arithmetic: where rounding decides -/

section Binary64

theorem dbl_log2Aux_eq (fuel n : ℕ) (hn : n ≤ fuel) : Dbl.log2Aux fuel n = Nat.log2 n := by
  induction fuel generalizing n with
  | zero =>
    have h0 : n = 0 := Nat.le_zero.mp hn
    subst h0
    rw [Nat.log2]; simp [Dbl.log2Aux]
  | succ fuel ih =>
    rw [Nat.log2, Dbl.log2Aux]
    by_cases h2 : n < 2
    · simp [h2, not_le.mpr h2]
    · have hge : n ≥ 2 := not_lt.mp h2
      have hdiv : n / 2 ≤ fuel := by omega
      simp [h2, hge, ih _ hdiv]

/-- The halving logarithm is `Nat.log2`. -/
theorem dbl_nlog2_eq (n : ℕ) : Dbl.nlog2 n = Nat.log2 n :=
  dbl_log2Aux_eq n n le_rfl

/-- The constants of lines 20–34 as binary64 values (`0.01` is
`0x1.47ae147ae147bp-7`, `k` is `0x1.0624dd2f1a9fcp-9`, and so on). -/
theorem dbl_constants :
    Dbl.p0 = 0x147ae147ae147b / 2 ^ 59 ∧ Dbl.k = 0x10624dd2f1a9fc / 2 ^ 61 ∧ Dbl.h = 1 ∧
    Dbl.hk Dbl.h Dbl.k = 0x10624dd2f1a9fc / 2 ^ 61 ∧
    Dbl.factor_t2 Dbl.h Dbl.k = 0x105e1c15097c81 / 2 ^ 61 ∧
    Dbl.a_trap Dbl.h Dbl.k = 0x1ff7ced916872b / 2 ^ 53 ∧
    Dbl.c_trap Dbl.h Dbl.k = 0x1004189374bc6a / 2 ^ 52 := by
  decide!

/-- The three states after the 50 steps of the verification loop, as binary64
values. -/
theorem dbl_final_states :
    (Dbl.eulerStep Dbl.h Dbl.k)^[50] Dbl.p0 = 0x1ab37289751d2d / 2 ^ 56 ∧
    (Dbl.taylorStep Dbl.h Dbl.k)^[50] Dbl.p0 = 0x1aad90b7a5d13a / 2 ^ 56 ∧
    (Dbl.trapStep Dbl.h Dbl.k)^[50] Dbl.p0 = 0x1aad9238c57536 / 2 ^ 56 := by
  decide!

theorem dbl_verifBody_out (expf : ℚ → ℚ) (p0 h k : ℚ) (steps : ℕ) (s : VerifState ℚ) (i : ℕ) :
    (Dbl.verifBody expf p0 h k steps s i).out
      = if i % 5 = 0 then
          s.out ++ [{ i := i, t_exact := Dbl.t_exact expf p0 h k i,
                      pe := s.pe, pt := s.pt, pz := s.pz }]
        else s.out := by
  unfold Dbl.verifBody
  by_cases h5 : i % 5 = 0 <;> by_cases hs : i < steps <;> simp [h5, hs]

/-- The first row written by the verification loop is the row of index 0 with the
three states still at `p0`. -/
theorem dbl_verifPrefix_head (expf : ℚ → ℚ) (p0 h k : ℚ) (steps n : ℕ) :
    (Dbl.verifPrefix expf p0 h k steps (n + 1)).out.head?
      = some { i := 0, t_exact := Dbl.t_exact expf p0 h k 0, pe := p0, pt := p0, pz := p0 } := by
  induction n with
  | zero =>
    have h1 : Dbl.verifPrefix expf p0 h k steps 1
        = Dbl.verifBody expf p0 h k steps { pe := p0, pt := p0, pz := p0, out := [] } 0 := by
      simp [Dbl.verifPrefix, List.range_succ]
    rw [h1, dbl_verifBody_out]
    simp
  | succ n ih =>
    have hs : Dbl.verifPrefix expf p0 h k steps (n + 1 + 1)
        = Dbl.verifBody expf p0 h k steps (Dbl.verifPrefix expf p0 h k steps (n + 1)) (n + 1) := by
      simp [Dbl.verifPrefix, List.range_succ, List.foldl_append]
    rw [hs, dbl_verifBody_out]
    split
    · rw [List.head?_append, ih]; rfl
    · exact ih

/-- In binary64 the argument of `exp` at index 0 is zero. -/
theorem dbl_exp_arg_zero :
    Dbl.mul (Dbl.mul (-Dbl.k) (Dbl.rnd ((0 : ℕ) : ℚ))) Dbl.h = 0 := by
  decide!

/-- In binary64, with `exp(0) = 1`, the exact column at index 0 is five units in
the last place above `p0`. -/
theorem dbl_t_exact_zero (expf : ℚ → ℚ) (hexp : expf 0 = 1) :
    Dbl.t_exact expf Dbl.p0 Dbl.h Dbl.k 0 = Dbl.p0 + 5 / 2 ^ 59 := by
  have hval : Dbl.sub (Dbl.rnd 1.0) (Dbl.mul (Dbl.sub (Dbl.rnd 1.0) Dbl.p0) 1)
      = Dbl.p0 + 5 / 2 ^ 59 := by decide!
  rw [Dbl.t_exact, dbl_exp_arg_zero, hexp, hval]

/-- C8, as stated, fails in the program's binary64 arithmetic: even with
`exp(0) = 1` the exact-solution value of the row of index 0 is not `p0`, the value
of the three schemes. -/
theorem first_row_raw_differs :
    ¬ (∀ expf : ℚ → ℚ, expf 0 = 1 → Dbl.t_exact expf Dbl.p0 Dbl.h Dbl.k 0 = Dbl.p0) := by
  intro hall
  have h1 := hall (fun _ => 1) rfl
  rw [dbl_t_exact_zero (fun _ => 1) rfl] at h1
  revert h1
  decide!

/-- C8, amended: for any `exp` with `exp(0) = 1`, the first row of the verification
table has index 0; its three scheme values are `p0`, the `double` nearest `0.01`;
its exact-solution value is `p0 + 5 * 2^-59`; and the four values are printed alike,
as `0.01000000`, under `fixed << setprecision(8)`. -/
theorem first_row_printed (expf : ℚ → ℚ) (hexp : expf 0 = 1) :
    (Dbl.verifLoop expf Dbl.p0 Dbl.h Dbl.k steps).out.head?
      = some { i := 0, t_exact := Dbl.p0 + 5 / 2 ^ 59,
               pe := Dbl.p0, pt := Dbl.p0, pz := Dbl.p0 } ∧
    Dbl.p0 = Dbl.rnd 0.01 ∧
    Dbl.t_exact expf Dbl.p0 Dbl.h Dbl.k 0 = Dbl.p0 + 5 / 2 ^ 59 ∧
    Dbl.fmtFixed 8 Dbl.p0 = 1000000 ∧
    Dbl.fmtFixed 8 (Dbl.t_exact expf Dbl.p0 Dbl.h Dbl.k 0) = 1000000 := by
  have ht := dbl_t_exact_zero expf hexp
  refine ⟨?_, rfl, ht, by decide!, ?_⟩
  · rw [Dbl.verifLoop, dbl_verifPrefix_head, ht]
  · rw [ht]; decide!

theorem first_row_printed_witness :
    (Dbl.verifLoop (fun x => Dbl.rnd (1 + x + x * x / 2)) Dbl.p0 Dbl.h Dbl.k steps).out.head?
      = some { i := 0, t_exact := Dbl.p0 + 5 / 2 ^ 59,
               pe := Dbl.p0, pt := Dbl.p0, pz := Dbl.p0 } ∧
    Dbl.p0 = Dbl.rnd 0.01 ∧
    Dbl.t_exact (fun x => Dbl.rnd (1 + x + x * x / 2)) Dbl.p0 Dbl.h Dbl.k 0
      = Dbl.p0 + 5 / 2 ^ 59 ∧
    Dbl.fmtFixed 8 Dbl.p0 = 1000000 ∧
    Dbl.fmtFixed 8 (Dbl.t_exact (fun x => Dbl.rnd (1 + x + x * x / 2)) Dbl.p0 Dbl.h Dbl.k 0)
      = 1000000 :=
  first_row_printed (fun x => Dbl.rnd (1 + x + x * x / 2)) (by decide!)

/-- C5, as stated, fails in the program's binary64 arithmetic: `1 - 2^-53` is a
`double` in `[0, 1)` that the Euler and Taylor steps do not increase and that the
trapezoid step sends to `1`. -/
theorem step_fails_below_one :
    Dbl.rnd (1 - 1 / 2 ^ 53) = 1 - 1 / 2 ^ 53 ∧
    (0 : ℚ) ≤ 1 - 1 / 2 ^ 53 ∧ (1 - 1 / 2 ^ 53 : ℚ) < 1 ∧
    ¬ (1 - 1 / 2 ^ 53 < Dbl.eulerStep Dbl.h Dbl.k (1 - 1 / 2 ^ 53)) ∧
    ¬ (1 - 1 / 2 ^ 53 < Dbl.taylorStep Dbl.h Dbl.k (1 - 1 / 2 ^ 53)) ∧
    ¬ (Dbl.trapStep Dbl.h Dbl.k (1 - 1 / 2 ^ 53) < 1) := by
  decide!

/-- The 51 states of each scheme in binary64 lie in `[0, 1)` and increase. -/
theorem dbl_trajectory :
    ∀ i, i ≤ 50 →
      (0 ≤ (Dbl.eulerStep Dbl.h Dbl.k)^[i] Dbl.p0 ∧ (Dbl.eulerStep Dbl.h Dbl.k)^[i] Dbl.p0 < 1 ∧
        (i < 50 → (Dbl.eulerStep Dbl.h Dbl.k)^[i] Dbl.p0 < (Dbl.eulerStep Dbl.h Dbl.k)^[i + 1] Dbl.p0 ∧
          (Dbl.eulerStep Dbl.h Dbl.k)^[i + 1] Dbl.p0 < 1)) ∧
      (0 ≤ (Dbl.taylorStep Dbl.h Dbl.k)^[i] Dbl.p0 ∧ (Dbl.taylorStep Dbl.h Dbl.k)^[i] Dbl.p0 < 1 ∧
        (i < 50 → (Dbl.taylorStep Dbl.h Dbl.k)^[i] Dbl.p0 < (Dbl.taylorStep Dbl.h Dbl.k)^[i + 1] Dbl.p0 ∧
          (Dbl.taylorStep Dbl.h Dbl.k)^[i + 1] Dbl.p0 < 1)) ∧
      (0 ≤ (Dbl.trapStep Dbl.h Dbl.k)^[i] Dbl.p0 ∧ (Dbl.trapStep Dbl.h Dbl.k)^[i] Dbl.p0 < 1 ∧
        (i < 50 → (Dbl.trapStep Dbl.h Dbl.k)^[i] Dbl.p0 < (Dbl.trapStep Dbl.h Dbl.k)^[i + 1] Dbl.p0 ∧
          (Dbl.trapStep Dbl.h Dbl.k)^[i + 1] Dbl.p0 < 1)) := by
  decide!

end Binary64

/-! ## Claims decided by the rounding -/

section RoundingClaims

/-- C5, amended: with `p0 = 0.01`, `k = 0.002`, `h = 1`, (a) in the program's
binary64 arithmetic, for every index `0 ≤ i ≤ 50` the `i`-th iterate of each scheme
lies in `[0, 1)` and, for `i < 50`, is strictly below the next iterate, which is
below 1; (b) in exact arithmetic (where `hk = 0.002`, `factor_t2 = 0.001998`,
`a_trap/c_trap = 0.999/1.001`) each step maps `[0, 1)` into `[0, 1)` and strictly
increases `p`. -/
theorem trajectory_in_unit_interval {K : Type*} [LinearOrderedField K] (i : ℕ) (hi : i ≤ 50)
    (p : K) (hp0 : 0 ≤ p) (hp1 : p < 1) :
    ((0 ≤ (Dbl.eulerStep Dbl.h Dbl.k)^[i] Dbl.p0 ∧ (Dbl.eulerStep Dbl.h Dbl.k)^[i] Dbl.p0 < 1 ∧
        (i < 50 → (Dbl.eulerStep Dbl.h Dbl.k)^[i] Dbl.p0 < (Dbl.eulerStep Dbl.h Dbl.k)^[i + 1] Dbl.p0 ∧
          (Dbl.eulerStep Dbl.h Dbl.k)^[i + 1] Dbl.p0 < 1)) ∧
      (0 ≤ (Dbl.taylorStep Dbl.h Dbl.k)^[i] Dbl.p0 ∧ (Dbl.taylorStep Dbl.h Dbl.k)^[i] Dbl.p0 < 1 ∧
        (i < 50 → (Dbl.taylorStep Dbl.h Dbl.k)^[i] Dbl.p0 < (Dbl.taylorStep Dbl.h Dbl.k)^[i + 1] Dbl.p0 ∧
          (Dbl.taylorStep Dbl.h Dbl.k)^[i + 1] Dbl.p0 < 1)) ∧
      (0 ≤ (Dbl.trapStep Dbl.h Dbl.k)^[i] Dbl.p0 ∧ (Dbl.trapStep Dbl.h Dbl.k)^[i] Dbl.p0 < 1 ∧
        (i < 50 → (Dbl.trapStep Dbl.h Dbl.k)^[i] Dbl.p0 < (Dbl.trapStep Dbl.h Dbl.k)^[i + 1] Dbl.p0 ∧
          (Dbl.trapStep Dbl.h Dbl.k)^[i + 1] Dbl.p0 < 1))) ∧
    (hk (h : K) k = 0.002 ∧ factor_t2 (h : K) k = 0.001998 ∧
      a_trap (h : K) k / c_trap (h : K) k = 0.999 / 1.001) ∧
    (0 ≤ eulerStep h k p ∧ eulerStep h k p < 1 ∧ p < eulerStep h k p) ∧
    (0 ≤ taylorStep h k p ∧ taylorStep h k p < 1 ∧ p < taylorStep h k p) ∧
    (0 ≤ trapStep h k p ∧ trapStep h k p < 1 ∧ p < trapStep h k p) :=
  ⟨dbl_trajectory i hi, (affine_steps_main i p hp0 hp1).1,
    (affine_steps_main i p hp0 hp1).2.2.2.2⟩

theorem trajectory_in_unit_interval_witness :
    ((49 : ℕ) ≤ 50 ∧ (0 : ℚ) ≤ 1 / 2 ∧ (1 / 2 : ℚ) < 1) ∧
    (0 ≤ (Dbl.eulerStep Dbl.h Dbl.k)^[49] Dbl.p0 ∧ (Dbl.eulerStep Dbl.h Dbl.k)^[49] Dbl.p0 < 1 ∧
      (49 < 50 → (Dbl.eulerStep Dbl.h Dbl.k)^[49] Dbl.p0 < (Dbl.eulerStep Dbl.h Dbl.k)^[49 + 1] Dbl.p0 ∧
        (Dbl.eulerStep Dbl.h Dbl.k)^[49 + 1] Dbl.p0 < 1)) ∧
    (0 ≤ trapStep (h : ℚ) k (1 / 2) ∧ trapStep (h : ℚ) k (1 / 2) < 1 ∧
      (1 / 2 : ℚ) < trapStep h k (1 / 2)) :=
  have hw := trajectory_in_unit_interval (K := ℚ) 49 (by decide) (1 / 2) (by norm_num)
    (by norm_num)
  ⟨⟨by decide, by norm_num, by norm_num⟩, hw.1.1, hw.2.2.2.2⟩

end RoundingClaims

end Taller1
